import Mathlib

/-!
Shallow embedding of the DataForge returns/statistics pipeline (src/app.py).

Conventions of the embedding:
* prices and returns are exact rationals (`ℚ`); IEEE floating point rounding is
  not modelled, but the float special values that the pipeline can actually
  produce are;
* a pandas missing cell (`NaN` inside a series) is `Option.none`;
* a real-valued scalar statistic that pandas may return as `NaN` is `Option ℝ`
  (`none` = NaN);
* the IEEE special values arising from scalar division (`inf`, `-inf`, `NaN`)
  are the dedicated type `FVal`, used where the source divides raw scalars;
* a library exception (pandas `ValueError` on shape mismatch) is
  `Except.error`.

Source lines embedded (src/app.py):
* line 65: `daily_returns = adj_close.pct_change().dropna()`
* line 68: `total_return = (adj_close.iloc[-1] / adj_close.iloc[0] - 1) * 100`
* line 69: `volatility = daily_returns.std() * np.sqrt(252)`
* line 138: `sector_returns = adj_close_sector.pct_change().fillna(0)`
* line 142: `portfolio_returns = (sector_returns * weights).sum(axis=1)`
* line 143: `cumulative_returns = (portfolio_returns + 1).cumprod()`
* line 185: `sector_returns.corr()`
-/

namespace DataForge

/-- One step of pandas `pct_change`: the previous (forward-filled) cell and the
current (forward-filled) cell give `cur / prev - 1`, or NaN when either is
missing. -/
def pct_change_step (prev cur : Option ℚ) : Option ℚ :=
  match prev, cur with
  | some a, some b => some (b / a - 1)
  | _, _ => none

/-- Pandas `Series.pct_change()` with its default forward-fill of missing
cells, relative to the last filled value `prev` (`none` before the series
starts). Each output cell is `filled[t] / filled[t-1] - 1`, NaN when either
side is still missing; the first output cell is always NaN. -/
def pct_change_from : Option ℚ → List (Option ℚ) → List (Option ℚ)
  | _, [] => []
  | prev, c :: rest =>
    match c with
    | some v => pct_change_step prev (some v) :: pct_change_from (some v) rest
    | none => pct_change_step prev prev :: pct_change_from prev rest

/-- `Series.pct_change()` as called on the price column (src/app.py line 65 and
line 138). -/
def pct_change (ps : List (Option ℚ)) : List (Option ℚ) :=
  pct_change_from none ps

/-- Line 65: `adj_close.pct_change().dropna()` — the single-stock daily return
series; `dropna` removes the NaN cells. -/
def daily_returns (ps : List (Option ℚ)) : List ℚ :=
  (pct_change ps).filterMap id

/-- Line 138: `adj_close_sector.pct_change().fillna(0)` — one column of the
sector return table; `fillna(0)` replaces every NaN cell by `0`. -/
def sector_returns (ps : List (Option ℚ)) : List ℚ :=
  (pct_change ps).map (fun o => o.getD 0)

/-- Arithmetic mean of a series, as used by pandas `mean`/`std`/`corr`. -/
def mean (l : List ℚ) : ℚ :=
  l.sum / l.length

/-- Centered sum of squares `Σ (x - mean)²` of a series (the raw second
moment used by pandas `std` and by `nancorr`). -/
def css (l : List ℚ) : ℚ :=
  (l.map (fun x => (x - mean l) ^ 2)).sum

/-- Sample variance with pandas' default `ddof = 1`. -/
def sampleVar (l : List ℚ) : ℚ :=
  css l / ((l.length : ℚ) - 1)

/-- Pandas `Series.std()` (ddof = 1): NaN (`none`) with fewer than 2
observations, otherwise the square root of the sample variance. -/
noncomputable def std (l : List ℚ) : Option ℝ :=
  if 2 ≤ l.length then some (Real.sqrt ((sampleVar l : ℚ) : ℝ)) else none

/-- Line 69: `volatility = daily_returns.std() * np.sqrt(252)`; NaN
propagates through the product. -/
noncomputable def volatility (l : List ℚ) : Option ℝ :=
  (std l).map (fun s => s * Real.sqrt 252)

/-- IEEE-style scalar values produced by numpy float arithmetic: NaN, the two
infinities, and exact finite values. Signed zero is not modelled (`0` behaves
as `+0`). -/
inductive FVal where
  | nan : FVal
  | posInf : FVal
  | negInf : FVal
  | num : ℚ → FVal
deriving DecidableEq

/-- IEEE division on scalars: a finite value divided by zero is a signed
infinity (NaN for `0/0`); numpy emits a `RuntimeWarning` but no exception. -/
def fdiv : FVal → FVal → FVal
  | FVal.nan, _ => FVal.nan
  | _, FVal.nan => FVal.nan
  | FVal.num a, FVal.num b =>
    if b = 0 then
      if a = 0 then FVal.nan else if 0 < a then FVal.posInf else FVal.negInf
    else FVal.num (a / b)
  | FVal.posInf, FVal.num b => if 0 ≤ b then FVal.posInf else FVal.negInf
  | FVal.negInf, FVal.num b => if 0 ≤ b then FVal.negInf else FVal.posInf
  | FVal.num _, FVal.posInf => FVal.num 0
  | FVal.num _, FVal.negInf => FVal.num 0
  | _, _ => FVal.nan

/-- IEEE subtraction on scalars. -/
def fsub : FVal → FVal → FVal
  | FVal.nan, _ => FVal.nan
  | _, FVal.nan => FVal.nan
  | FVal.num a, FVal.num b => FVal.num (a - b)
  | FVal.posInf, FVal.num _ => FVal.posInf
  | FVal.negInf, FVal.num _ => FVal.negInf
  | FVal.num _, FVal.posInf => FVal.negInf
  | FVal.num _, FVal.negInf => FVal.posInf
  | FVal.posInf, FVal.negInf => FVal.posInf
  | FVal.negInf, FVal.posInf => FVal.negInf
  | FVal.posInf, FVal.posInf => FVal.nan
  | FVal.negInf, FVal.negInf => FVal.nan

/-- IEEE multiplication on scalars. -/
def fmul : FVal → FVal → FVal
  | FVal.nan, _ => FVal.nan
  | _, FVal.nan => FVal.nan
  | FVal.num a, FVal.num b => FVal.num (a * b)
  | FVal.posInf, FVal.num b =>
    if b = 0 then FVal.nan else if 0 < b then FVal.posInf else FVal.negInf
  | FVal.negInf, FVal.num b =>
    if b = 0 then FVal.nan else if 0 < b then FVal.negInf else FVal.posInf
  | FVal.num a, FVal.posInf =>
    if a = 0 then FVal.nan else if 0 < a then FVal.posInf else FVal.negInf
  | FVal.num a, FVal.negInf =>
    if a = 0 then FVal.nan else if 0 < a then FVal.negInf else FVal.posInf
  | FVal.posInf, FVal.posInf => FVal.posInf
  | FVal.posInf, FVal.negInf => FVal.negInf
  | FVal.negInf, FVal.posInf => FVal.negInf
  | FVal.negInf, FVal.negInf => FVal.posInf

/-- Line 68: `total_return = (adj_close.iloc[-1] / adj_close.iloc[0] - 1) *
100`, computed in IEEE scalar arithmetic: there is no guard on a zero first
price, the division simply produces an infinity or NaN. -/
def total_return (ps : List ℚ) : FVal :=
  fmul (fsub (fdiv (FVal.num (ps.getLastD 0)) (FVal.num (ps.headD 0))) (FVal.num 1)) (FVal.num 100)

/-- The spec's version of `totalReturn` (§4.2): identical formula but the zero
first price is guarded and surfaces as a DivisionByZero-class failure. Stated
here only to be compared with `total_return`, the embedding of the source. -/
def total_return_spec (ps : List ℚ) : Except String ℚ :=
  if ps.headD 0 = 0 then Except.error ("DivisionByZero: first price is zero")
  else Except.ok ((ps.getLastD 0 / ps.headD 0 - 1) * 100)

/-- Line 142, the product `sector_returns * weights`: each column is scaled by
its (position-aligned) weight. -/
def weighted_cols (cols : List (List ℚ)) (ws : List ℚ) : List (List ℚ) :=
  List.zipWith (fun c w => c.map (fun x => w * x)) cols ws

/-- Row-wise sum (`.sum(axis=1)`) of a table with `n` rows given by its
columns. -/
def row_sums (n : ℕ) (cols : List (List ℚ)) : List ℚ :=
  (List.range n).map (fun t => (cols.map (fun c => c.getD t 0)).sum)

/-- Line 142: `portfolio_returns = (sector_returns * weights).sum(axis=1)`
for a return table with `n` rows given by its columns. -/
def portfolio_returns (n : ℕ) (cols : List (List ℚ)) (ws : List ℚ) : List ℚ :=
  row_sums n (weighted_cols cols ws)

/-- Line 142 with pandas' alignment rule made explicit: multiplying a
DataFrame by a 1-D numpy array raises `ValueError` (unable to coerce the
array to a column Series) whenever the array length differs from the number
of columns; only matching lengths produce the weighted sum. -/
def portfolio_returns_checked (n : ℕ) (cols : List (List ℚ)) (ws : List ℚ) :
    Except String (List ℚ) :=
  if cols.length = ws.length then Except.ok (portfolio_returns n cols ws)
  else Except.error ("ValueError: unable to coerce the weights array to a Series, lengths differ")

/-- Running product with accumulator `acc`: the cumulative products of
`acc * l[0] * ... * l[t]`. -/
def cumprodAux : ℚ → List ℚ → List ℚ
  | _, [] => []
  | acc, x :: rest => (acc * x) :: cumprodAux (acc * x) rest

/-- Line 143: `cumulative_returns = (portfolio_returns + 1).cumprod()`. -/
def cumulative_returns (rs : List ℚ) : List ℚ :=
  cumprodAux 1 (rs.map (fun r => r + 1))

/-- The pairwise-complete observations of two aligned series: the positions
where both cells are non-missing (pandas `nancorr` masking). -/
def overlap : List (Option ℚ) → List (Option ℚ) → List (ℚ × ℚ)
  | some a :: xs, some b :: ys => (a, b) :: overlap xs ys
  | _ :: xs, _ :: ys => overlap xs ys
  | _, _ => []

/-- Centered cross moment `Σ (x - mean x)(y - mean y)` of a list of
observation pairs (the covariance numerator of pandas `nancorr`). -/
def corrNum (o : List (ℚ × ℚ)) : ℚ :=
  (List.zipWith (fun x y => (x - mean (o.map Prod.fst)) * (y - mean (o.map Prod.snd)))
    (o.map Prod.fst) (o.map Prod.snd)).sum

/-- Product of the two centered square sums of a list of observation pairs:
the square of the divisor used by pandas `nancorr`. -/
def corrDen (o : List (ℚ × ℚ)) : ℚ :=
  css (o.map Prod.fst) * css (o.map Prod.snd)

/-- Pearson correlation of two aligned series as pandas `DataFrame.corr()`
computes one cell (`nancorr`, default `min_periods = 1`): NaN when there are
no overlapping observations or when the divisor `sqrt(css x * css y)` is
zero, otherwise the centered cross moment over that divisor. -/
noncomputable def corr (xs ys : List (Option ℚ)) : Option ℝ :=
  if (overlap xs ys).length < 1 then none
  else if corrDen (overlap xs ys) = 0 then none
  else some (((corrNum (overlap xs ys) : ℚ) : ℝ) /
    Real.sqrt ((corrDen (overlap xs ys) : ℚ) : ℝ))

/-- Line 185: entry `(i, j)` of `sector_returns.corr()`, the correlation of
columns `i` and `j`. -/
noncomputable def corr_matrix (cols : List (List (Option ℚ))) (i j : ℕ) : Option ℝ :=
  corr (cols.getD i []) (cols.getD j [])

/-- Modelled from the spec: the Sharpe-ratio step of PortfolioAggregator
(spec §4.3, item 3) has no implementation in src/app.py, so it is modelled
from the spec's words: `mean(portfolioReturn) / stdev(portfolioReturn) *
sqrt(252)`, failing with a DivisionByZero-class sentinel when the standard
deviation is zero (constant returns) or undefined (fewer than 2 samples). -/
noncomputable def sharpeRatioSpec (rs : List ℚ) : Except String ℝ :=
  if 2 ≤ rs.length ∧ sampleVar rs ≠ 0 then
    Except.ok (((mean rs : ℚ) : ℝ) / Real.sqrt ((sampleVar rs : ℚ) : ℝ) * Real.sqrt 252)
  else
    Except.error ("DivisionByZero: Sharpe ratio undefined for zero standard deviation")

/-! Helper lemmas about the embedded operations. -/

theorem pct_change_from_map_some (a : ℚ) (l : List ℚ) :
    pct_change_from (some a) (l.map some) =
      List.zipWith (fun x y => some (y / x - 1)) (a :: l) l := by
  induction l generalizing a with
  | nil => rfl
  | cons b t ih =>
    simp only [List.map_cons, pct_change_from, pct_change_step, ih, List.zipWith]

theorem pct_change_map_some (p : ℚ) (l : List ℚ) :
    pct_change ((p :: l).map some) =
      none :: List.zipWith (fun x y => some (y / x - 1)) (p :: l) l := by
  simp only [pct_change, List.map_cons, pct_change_from, pct_change_step,
    pct_change_from_map_some]

theorem filterMap_id_zipWith_some (f : ℚ → ℚ → ℚ) (l₁ l₂ : List ℚ) :
    (List.zipWith (fun x y => some (f x y)) l₁ l₂).filterMap id = List.zipWith f l₁ l₂ := by
  induction l₁ generalizing l₂ with
  | nil => rfl
  | cons a t ih =>
    cases l₂ with
    | nil => rfl
    | cons b u => simp [List.zipWith, List.filterMap_cons, ih]

theorem daily_returns_map_some (p : ℚ) (l : List ℚ) :
    daily_returns ((p :: l).map some) = List.zipWith (fun x y => y / x - 1) (p :: l) l := by
  simp only [daily_returns, pct_change_map_some, List.filterMap_cons, id]
  exact filterMap_id_zipWith_some _ _ _

theorem length_pct_change_from (l : List (Option ℚ)) :
    ∀ prev, (pct_change_from prev l).length = l.length := by
  induction l with
  | nil => intro prev; rfl
  | cons c t ih =>
    intro prev
    cases c <;> simp [pct_change_from, ih]

theorem length_sector_returns (l : List (Option ℚ)) :
    (sector_returns l).length = l.length := by
  simp [sector_returns, pct_change, length_pct_change_from]

theorem sector_returns_head (c : Option ℚ) (l : List (Option ℚ)) :
    (sector_returns (c :: l)).head? = some 0 := by
  cases c <;> simp [sector_returns, pct_change, pct_change_from, pct_change_step]

theorem sector_returns_getD_zero (c : Option ℚ) (l : List (Option ℚ)) :
    (sector_returns (c :: l)).getD 0 0 = 0 := by
  cases c <;> simp [sector_returns, pct_change, pct_change_from, pct_change_step]

theorem getD_eq_default_of_le (l : List ℚ) (d : ℚ) (i : ℕ) (h : l.length ≤ i) :
    l.getD i d = d := by
  simp [List.getD_eq_getElem?_getD, List.getElem?_eq_none h]

theorem getD_map_scale (w : ℚ) (c : List ℚ) (t : ℕ) :
    (c.map (fun x => w * x)).getD t 0 = w * c.getD t 0 := by
  by_cases h : t < c.length
  · rw [List.getD_eq_getElem _ _ (by simpa using h), List.getD_eq_getElem _ _ h]
    simp
  · push_neg at h
    rw [getD_eq_default_of_le _ _ _ (by simpa using h), getD_eq_default_of_le _ _ _ h,
      mul_zero]

theorem row_sums_getD (n t : ℕ) (ht : t < n) (cols : List (List ℚ)) :
    (row_sums n cols).getD t 0 = (cols.map (fun c => c.getD t 0)).sum := by
  rw [row_sums, List.getD_eq_getElem _ _ (by simpa using ht)]
  simp

theorem weighted_sum_getD (t : ℕ) :
    ∀ (cols : List (List ℚ)) (ws : List ℚ), ws.length = cols.length →
      ((weighted_cols cols ws).map (fun c => c.getD t 0)).sum =
        ∑ i ∈ Finset.range cols.length, ws.getD i 0 * (cols.getD i []).getD t 0 := by
  intro cols
  induction cols with
  | nil => intro ws h; simp [weighted_cols]
  | cons c cs ih =>
    intro ws h
    cases ws with
    | nil => simp at h
    | cons w vs =>
      simp only [List.length_cons] at h
      have hrec := ih vs (by omega)
      simp only [weighted_cols, List.zipWith, List.map_cons, List.sum_cons,
        List.length_cons]
      rw [Finset.sum_range_succ']
      simp only [List.getD_cons_succ, List.getD_cons_zero]
      rw [← hrec, getD_map_scale, add_comm]
      rfl

theorem portfolio_returns_getD (n t : ℕ) (ht : t < n) (cols : List (List ℚ))
    (ws : List ℚ) (h : ws.length = cols.length) :
    (portfolio_returns n cols ws).getD t 0 =
      ∑ i ∈ Finset.range cols.length, ws.getD i 0 * (cols.getD i []).getD t 0 := by
  rw [portfolio_returns, row_sums_getD n t ht, weighted_sum_getD t cols ws h]

theorem length_portfolio_returns (n : ℕ) (cols : List (List ℚ)) (ws : List ℚ) :
    (portfolio_returns n cols ws).length = n := by
  simp [portfolio_returns, row_sums]

theorem length_cumprodAux (l : List ℚ) : ∀ acc, (cumprodAux acc l).length = l.length := by
  induction l with
  | nil => intro acc; rfl
  | cons x t ih => intro acc; simp [cumprodAux, ih]

theorem length_cumulative_returns (rs : List ℚ) :
    (cumulative_returns rs).length = rs.length := by
  simp [cumulative_returns, length_cumprodAux]

theorem cumprodAux_getD (l : List ℚ) :
    ∀ (acc : ℚ) (t : ℕ), t < l.length →
      (cumprodAux acc l).getD t 0 = acc * ∏ s ∈ Finset.range (t + 1), l.getD s 0 := by
  induction l with
  | nil => intro acc t ht; simp at ht
  | cons x u ih =>
    intro acc t ht
    cases t with
    | zero => simp [cumprodAux]
    | succ t' =>
      have ht' : t' < u.length := by simpa using ht
      simp only [cumprodAux, List.getD_cons_succ]
      rw [ih (acc * x) t' ht',
        Finset.prod_range_succ' (fun s => (x :: u).getD s 0) (t' + 1)]
      simp only [List.getD_cons_succ, List.getD_cons_zero]
      ring

theorem cumulative_returns_getD (rs : List ℚ) (t : ℕ) (ht : t < rs.length) :
    (cumulative_returns rs).getD t 0 = ∏ s ∈ Finset.range (t + 1), (1 + rs.getD s 0) := by
  rw [cumulative_returns, cumprodAux_getD _ 1 t (by simpa using ht), one_mul]
  refine Finset.prod_congr rfl (fun s hs => ?_)
  have hst : s < rs.length := by
    have := Finset.mem_range.mp hs
    omega
  rw [List.getD_eq_getElem _ _ (by simpa using hst), List.getD_eq_getElem _ _ hst]
  simp [add_comm]

theorem css_nonneg (l : List ℚ) : 0 ≤ css l := by
  apply List.sum_nonneg
  intro x hx
  simp only [List.mem_map] at hx
  obtain ⟨y, _, rfl⟩ := hx
  positivity

theorem sampleVar_nonneg (l : List ℚ) (h : 2 ≤ l.length) : 0 ≤ sampleVar l := by
  apply div_nonneg (css_nonneg l)
  have : (2 : ℚ) ≤ (l.length : ℚ) := by exact_mod_cast h
  linarith

theorem overlap_swap (xs : List (Option ℚ)) :
    ∀ ys, overlap ys xs = (overlap xs ys).map (fun p => (p.2, p.1)) := by
  induction xs with
  | nil =>
    intro ys
    cases ys with
    | nil => rfl
    | cons y yt => cases y <;> rfl
  | cons x xt ih =>
    intro ys
    cases ys with
    | nil => cases x <;> rfl
    | cons y yt => cases x <;> cases y <;> simp [overlap, ih yt]

theorem map_fst_map_swap (o : List (ℚ × ℚ)) :
    (o.map (fun p => (p.2, p.1))).map Prod.fst = o.map Prod.snd := by
  simp [List.map_map]

theorem map_snd_map_swap (o : List (ℚ × ℚ)) :
    (o.map (fun p => (p.2, p.1))).map Prod.snd = o.map Prod.fst := by
  simp [List.map_map]

theorem corrNum_swap (o : List (ℚ × ℚ)) :
    corrNum (o.map (fun p => (p.2, p.1))) = corrNum o := by
  unfold corrNum
  rw [map_fst_map_swap, map_snd_map_swap]
  rw [List.zipWith_comm]
  have hf : (fun (b a : ℚ) => (a - mean (o.map Prod.snd)) * (b - mean (o.map Prod.fst)))
      = (fun (x y : ℚ) => (x - mean (o.map Prod.fst)) * (y - mean (o.map Prod.snd))) := by
    funext p q
    ring
  rw [hf]

theorem corrDen_swap (o : List (ℚ × ℚ)) :
    corrDen (o.map (fun p => (p.2, p.1))) = corrDen o := by
  unfold corrDen
  rw [map_fst_map_swap, map_snd_map_swap, mul_comm]

theorem corr_comm (xs ys : List (Option ℚ)) : corr ys xs = corr xs ys := by
  unfold corr
  rw [overlap_swap xs ys, corrNum_swap, corrDen_swap, List.length_map]

theorem overlap_self (xs : List (Option ℚ)) :
    overlap xs xs = (xs.filterMap id).map (fun a => (a, a)) := by
  induction xs with
  | nil => rfl
  | cons c t ih => cases c <;> simp [overlap, List.filterMap_cons, ih]

theorem map_fst_map_diag (l : List ℚ) :
    ((l.map (fun a => (a, a))).map Prod.fst) = l := by
  simp [List.map_map, Function.comp_def]

theorem map_snd_map_diag (l : List ℚ) :
    ((l.map (fun a => (a, a))).map Prod.snd) = l := by
  simp [List.map_map, Function.comp_def]

theorem corrNum_diag (l : List ℚ) : corrNum (l.map (fun a => (a, a))) = css l := by
  unfold corrNum css
  rw [map_fst_map_diag, map_snd_map_diag, List.zipWith_same]
  have hf : (fun (a : ℚ) => (a - mean l) * (a - mean l))
      = (fun (x : ℚ) => (x - mean l) ^ 2) := by
    funext x
    ring
  rw [hf]

theorem corrDen_diag (l : List ℚ) :
    corrDen (l.map (fun a => (a, a))) = css l * css l := by
  unfold corrDen
  rw [map_fst_map_diag, map_snd_map_diag]

theorem corr_self (xs : List (Option ℚ)) (h : css (xs.filterMap id) ≠ 0) :
    corr xs xs = some 1 := by
  have hne : xs.filterMap id ≠ [] := by
    intro hnil
    apply h
    rw [hnil]
    rfl
  have hlen : ¬ (overlap xs xs).length < 1 := by
    rw [overlap_self, List.length_map]
    have := List.length_pos.mpr hne
    omega
  have hden : corrDen (overlap xs xs) = css (xs.filterMap id) * css (xs.filterMap id) := by
    rw [overlap_self, corrDen_diag]
  have hnum : corrNum (overlap xs xs) = css (xs.filterMap id) :=
    by rw [overlap_self, corrNum_diag]
  have hdenne : corrDen (overlap xs xs) ≠ 0 := by
    rw [hden]
    exact mul_ne_zero h h
  unfold corr
  rw [if_neg hlen, if_neg hdenne, hnum, hden]
  have hcast : ((css (xs.filterMap id) : ℚ) : ℝ) ≠ 0 := by exact_mod_cast h
  have hcast0 : (0 : ℝ) ≤ ((css (xs.filterMap id) : ℚ) : ℝ) := by
    exact_mod_cast css_nonneg (xs.filterMap id)
  push_cast
  rw [Real.sqrt_mul_self hcast0, div_self hcast]

theorem mean_singleton (x : ℚ) : mean [x] = x := by
  simp [mean]

theorem css_singleton (x : ℚ) : css [x] = 0 := by
  simp [css, mean_singleton]

theorem corr_few_obs (xs ys : List (Option ℚ)) (h : (overlap xs ys).length < 2) :
    corr xs ys = none := by
  unfold corr
  rcases ho : overlap xs ys with _ | ⟨⟨x, y⟩, _ | ⟨q, rest⟩⟩
  · rw [if_pos]
    simp
  · rw [if_neg (by simp)]
    rw [if_pos]
    unfold corrDen
    simp [css_singleton]
  · rw [ho] at h
    simp at h
    omega

theorem length_daily_returns_map_some (p : ℚ) (l : List ℚ) :
    (daily_returns ((p :: l).map some)).length = l.length := by
  rw [daily_returns_map_some]
  simp [List.length_zipWith]

theorem getD_map_sector (cols : List (List (Option ℚ))) (i : ℕ) (hi : i < cols.length) :
    (cols.map sector_returns).getD i [] = sector_returns (cols.getD i []) := by
  rw [List.getD_eq_getElem _ _ (by simpa using hi), List.getD_eq_getElem _ _ hi]
  simp

theorem sum_getD_zero_of_cols_zero (t : ℕ) :
    ∀ (X : List (List ℚ)) (ws : List ℚ), (∀ c ∈ X, c.getD t 0 = 0) →
      ((weighted_cols X ws).map (fun c => c.getD t 0)).sum = 0 := by
  intro X
  induction X with
  | nil => intro ws _; simp [weighted_cols]
  | cons c cs ih =>
    intro ws h
    cases ws with
    | nil => simp [weighted_cols]
    | cons w vs =>
      simp only [weighted_cols, List.zipWith, List.map_cons, List.sum_cons]
      rw [getD_map_scale, h c (by simp)]
      have := ih vs (fun c' hc' => h c' (by simp [hc']))
      simp only [weighted_cols] at this
      rw [this, mul_zero, add_zero]

theorem volatility_scenario_value :
    volatility [1/10, -1/10] = some (Real.sqrt ((1 : ℝ)/50) * Real.sqrt 252) := by
  have hv : sampleVar [1/10, -1/10] = 1/50 := by norm_num [sampleVar, css, mean]
  have hlen : 2 ≤ ([1/10, -1/10] : List ℚ).length := by norm_num
  rw [volatility, std, if_pos hlen, hv, Option.map_some']
  norm_num

theorem sqrt_bounds_5p04 :
    2.24499 < Real.sqrt ((1 : ℝ)/50) * Real.sqrt 252 ∧
      Real.sqrt ((1 : ℝ)/50) * Real.sqrt 252 < 2.245 := by
  rw [← Real.sqrt_mul (by norm_num : (0:ℝ) ≤ 1/50) 252]
  have h1 : ((1:ℝ)/50) * 252 = 126/25 := by norm_num
  rw [h1]
  constructor
  · exact (Real.lt_sqrt (by norm_num)).mpr (by norm_num)
  · exact (Real.sqrt_lt' (by norm_num)).mpr (by norm_num)

/-! Claim theorems. -/

/-- C1 (counterexample): the claim quantifies over price series with at least
2 non-missing values, but a series whose first cell is missing — here
[missing, 100, 110], which has 2 non-missing values — yields
`pct_change().dropna()` of length 1, not `length - 1 = 2`: `dropna` drops
every NaN row, not only the first. -/
theorem daily_returns_missing_first_counterexample :
    (daily_returns [none, some 100, some 110]).length = 1 ∧ (1 : ℕ) ≠ 3 - 1 := by
  constructor
  · norm_num [daily_returns, pct_change, pct_change_from, pct_change_step,
      List.filterMap_cons]
  · decide

/-- C1 (amended): for every price series with at least 2 values, all of them
non-missing, the return series has value `price[t]/price[t-1] - 1` at each
date and is exactly one element shorter than the price series. -/
theorem daily_returns_complete_series (ps : List ℚ) (h2 : 2 ≤ ps.length) :
    (daily_returns (ps.map some)).length = ps.length - 1 ∧
    ∀ i, i < ps.length - 1 →
      (daily_returns (ps.map some)).getD i 0 = ps.getD (i + 1) 0 / ps.getD i 0 - 1 := by
  cases ps with
  | nil => simp at h2
  | cons p l =>
    constructor
    · rw [length_daily_returns_map_some]
      simp
    · intro i hi
      have hil : i < l.length := by simpa using hi
      rw [daily_returns_map_some]
      have hz : i < (List.zipWith (fun x y => y / x - 1) (p :: l) l).length := by
        simp [List.length_zipWith]
        omega
      have h1 : i + 1 < (p :: l).length := by simp; omega
      have h0 : i < (p :: l).length := by simp; omega
      rw [List.getD_eq_getElem _ _ hz, List.getD_eq_getElem _ _ h1,
        List.getD_eq_getElem _ _ h0, List.getElem_zipWith]
      simp

/-- C1 (witness): the amended theorem applied to the concrete price series
[100, 110, 99]. -/
theorem daily_returns_complete_series_witness :
    (daily_returns (([100, 110, 99] : List ℚ).map some)).length = 2 ∧
    (daily_returns (([100, 110, 99] : List ℚ).map some)).getD 1 0 =
      ([100, 110, 99] : List ℚ).getD 2 0 / ([100, 110, 99] : List ℚ).getD 1 0 - 1 :=
  ⟨(daily_returns_complete_series [100, 110, 99] (by norm_num)).1,
   (daily_returns_complete_series [100, 110, 99] (by norm_num)).2 1 (by norm_num)⟩

/-- C2: the portfolio return at each date `t` is the weighted sum
`Σ_i weight[i] * return[i][t]` of the per-instrument return series, where
every missing return value has first been filled with zero
(`pct_change().fillna(0)` in `sector_returns`). -/
theorem portfolio_weighted_sum (cols : List (List (Option ℚ))) (ws : List ℚ)
    (n t : ℕ) (hw : ws.length = cols.length) (ht : t < n) :
    (portfolio_returns n (cols.map sector_returns) ws).getD t 0 =
      ∑ i ∈ Finset.range cols.length,
        ws.getD i 0 * (sector_returns (cols.getD i [])).getD t 0 := by
  rw [portfolio_returns_getD n t ht _ ws (by simpa using hw)]
  rw [List.length_map]
  refine Finset.sum_congr rfl (fun i hi => ?_)
  rw [getD_map_sector cols i (Finset.mem_range.mp hi)]

/-- C2 (witness): the weighted-sum theorem applied to two concrete aligned
columns with weights 1/2 and 1/2 at date 1. -/
theorem portfolio_weighted_sum_witness :
    (portfolio_returns 2 ([[some 1, some 2], [some 1, some 3]].map sector_returns)
      [1/2, 1/2]).getD 1 0 =
      ∑ i ∈ Finset.range 2,
        ([1/2, 1/2] : List ℚ).getD i 0 *
          (sector_returns (([[some 1, some 2], [some 1, some 3]] :
            List (List (Option ℚ))).getD i [])).getD 1 0 := by
  simpa using
    portfolio_weighted_sum [[some 1, some 2], [some 1, some 3]] [1/2, 1/2] 2 1
      (by norm_num) (by norm_num)

/-- C3: the cumulative return series is the running compounding product
`Π_{s ≤ t} (1 + portfolioReturn[s])` (base 1 before the first date), and on
the spec's concrete scenario — per-instrument returns [0.01, 0.02, -0.01]
and [0.02, 0.01, 0.00] with weights [0.5, 0.5] — the portfolio returns are
[0.015, 0.015, -0.005] and the cumulative returns are exactly
[1.015, 1.030225, 1.025073875], whose entries rounded to 6 places are
1.015, 1.030225 and 1.025074. -/
theorem cumulative_compounding :
    (∀ (rs : List ℚ) (t : ℕ), t < rs.length →
      (cumulative_returns rs).getD t 0 = ∏ s ∈ Finset.range (t + 1), (1 + rs.getD s 0)) ∧
    portfolio_returns 3 [[1/100, 2/100, -1/100], [2/100, 1/100, 0]] [1/2, 1/2]
      = [3/200, 3/200, -1/200] ∧
    cumulative_returns [3/200, 3/200, -1/200]
      = [203/200, 41209/40000, 8200591/8000000] ∧
    (203 : ℚ)/200 = 1015/1000 ∧
    (41209 : ℚ)/40000 = 1030225/1000000 ∧
    |(8200591 : ℚ)/8000000 - 1025074/1000000| ≤ 1/2000000 := by
  refine ⟨cumulative_returns_getD, ?_, ?_, by norm_num, by norm_num, by rw [abs_le]; norm_num⟩
  · norm_num [portfolio_returns, row_sums, weighted_cols, List.range_succ]
  · norm_num [cumulative_returns, cumprodAux]

/-- C3 (witness): the compounding-product part applied to the concrete
portfolio return series of the scenario at its last date. -/
theorem cumulative_compounding_witness :
    (cumulative_returns [3/200, 3/200, -1/200]).getD 2 0 =
      ∏ s ∈ Finset.range 3, (1 + ([3/200, 3/200, -1/200] : List ℚ).getD s 0) :=
  cumulative_compounding.1 [3/200, 3/200, -1/200] 2 (by norm_num)

/-- C4 (spec-modelled): src/app.py computes no Sharpe ratio, so the claim is
settled against `sharpeRatioSpec`, modelled from the spec: with at least 2
return observations and a non-zero standard deviation the result is
`mean / stdev * sqrt(252)`; a zero standard deviation — constant returns, or
single-sample (indeed any fewer-than-2-sample) returns, whose standard
deviation is 0 by the spec's convention — yields the documented
DivisionByZero-class sentinel and never an ok-value (hence no silent
infinity or NaN). -/
theorem sharpe_ratio_cases (rs : List ℚ) :
    (2 ≤ rs.length → Real.sqrt ((sampleVar rs : ℚ) : ℝ) ≠ 0 →
      sharpeRatioSpec rs =
        Except.ok (((mean rs : ℚ) : ℝ) / Real.sqrt ((sampleVar rs : ℚ) : ℝ) *
          Real.sqrt 252)) ∧
    (Real.sqrt ((sampleVar rs : ℚ) : ℝ) = 0 ∨ rs.length < 2 →
      sharpeRatioSpec rs =
        Except.error ("DivisionByZero: Sharpe ratio undefined for zero standard deviation") ∧
      ∀ x : ℝ, sharpeRatioSpec rs ≠ Except.ok x) := by
  constructor
  · intro h2 hs
    have hv : sampleVar rs ≠ 0 := by
      intro h0
      apply hs
      rw [h0]
      simp
    rw [sharpeRatioSpec, if_pos ⟨h2, hv⟩]
  · intro hs
    have hcond : ¬ (2 ≤ rs.length ∧ sampleVar rs ≠ 0) := by
      by_cases h2 : 2 ≤ rs.length
      · have hsq : Real.sqrt ((sampleVar rs : ℚ) : ℝ) = 0 := by
          rcases hs with hsq | hlt
          · exact hsq
          · omega
        have hv : sampleVar rs = 0 := by
          have hle : ((sampleVar rs : ℚ) : ℝ) ≤ 0 := Real.sqrt_eq_zero'.mp hsq
          have hge : (0 : ℚ) ≤ sampleVar rs := sampleVar_nonneg rs h2
          have : ((sampleVar rs : ℚ) : ℝ) = 0 := le_antisymm hle (by exact_mod_cast hge)
          exact_mod_cast this
        intro hc
        exact hc.2 hv
      · intro hc
        exact h2 hc.1
    rw [sharpeRatioSpec, if_neg hcond]
    exact ⟨rfl, fun x hx => Except.noConfusion hx⟩

/-- C4 (witness): the Sharpe theorem applied to a series with non-zero
variance, to a constant series, and to a single-sample series. -/
theorem sharpe_ratio_cases_witness :
    sharpeRatioSpec [1/10, 3/10] =
      Except.ok (((mean [1/10, 3/10] : ℚ) : ℝ) /
        Real.sqrt ((sampleVar [1/10, 3/10] : ℚ) : ℝ) * Real.sqrt 252) ∧
    sharpeRatioSpec [2/10, 2/10] =
      Except.error ("DivisionByZero: Sharpe ratio undefined for zero standard deviation") ∧
    sharpeRatioSpec [7/10] =
      Except.error ("DivisionByZero: Sharpe ratio undefined for zero standard deviation") := by
  refine ⟨(sharpe_ratio_cases [1/10, 3/10]).1 (by norm_num) ?_,
    ((sharpe_ratio_cases [2/10, 2/10]).2 (Or.inl ?_)).1,
    ((sharpe_ratio_cases [7/10]).2 (Or.inr (by norm_num))).1⟩
  · rw [Real.sqrt_ne_zero']
    have hv : sampleVar [1/10, 3/10] = 1/50 := by norm_num [sampleVar, css, mean]
    rw [hv]
    norm_num
  · have hv : sampleVar [2/10, 2/10] = 0 := by norm_num [sampleVar, css, mean]
    rw [hv]
    simp

/-- C5 (counterexample): at the price series [0, 110, 99] the source's
`total_return` does not fail: the IEEE division yields positive infinity
(numpy emits only a RuntimeWarning), while the spec-side guarded version
fails with the DivisionByZero-class error the claim requires. -/
theorem total_return_zero_first_counterexample :
    total_return [0, 110, 99] = FVal.posInf ∧
    total_return_spec [0, 110, 99] =
      Except.error ("DivisionByZero: first price is zero") := by
  constructor
  · norm_num [total_return, fdiv, fsub, fmul]
  · norm_num [total_return_spec]

/-- C5 (amended): `totalReturn = (last/first - 1) * 100` holds whenever the
first price is non-zero; when the first price is zero the code does not fail
but silently produces an IEEE special value — positive infinity for a
positive last price, NaN when the last price is also zero. -/
theorem total_return_formula (ps : List ℚ) (hne : ps ≠ []) :
    (ps.headD 0 ≠ 0 →
      total_return ps = FVal.num ((ps.getLastD 0 / ps.headD 0 - 1) * 100)) ∧
    (ps.headD 0 = 0 → 0 < ps.getLastD 0 → total_return ps = FVal.posInf) ∧
    (ps.headD 0 = 0 → ps.getLastD 0 = 0 → total_return ps = FVal.nan) := by
  refine ⟨fun h0 => ?_, fun h0 hl => ?_, fun h0 hl => ?_⟩
  · simp only [total_return, fdiv]
    rw [if_neg h0]
    simp only [fsub, fmul]
  · simp only [total_return, fdiv]
    rw [if_pos h0, if_neg hl.ne', if_pos hl]
    simp only [fsub, fmul]
    norm_num
  · simp only [total_return, fdiv]
    rw [if_pos h0, if_pos hl]
    simp only [fsub, fmul]

/-- C5 (witness): the amended theorem applied to the concrete series
[100, 110, 99]. -/
theorem total_return_formula_witness :
    total_return [100, 110, 99] =
      FVal.num ((([100, 110, 99] : List ℚ).getLastD 0 /
        ([100, 110, 99] : List ℚ).headD 0 - 1) * 100) :=
  (total_return_formula [100, 110, 99] (by simp)).1 (by norm_num)

/-- C6 (counterexample): with exactly one return observation the source's
`daily_returns.std()` is pandas' NaN (modelled `none`), not the claimed 0:
the code leaves the single-observation case to the library default. -/
theorem volatility_single_obs_counterexample :
    volatility [(1 : ℚ)/10] = none ∧ volatility [(1 : ℚ)/10] ≠ some 0 := by
  constructor
  · simp [volatility, std]
  · simp [volatility, std]

/-- C6 (amended): `annualizedVolatility = stdev * sqrt(252)` for at least 2
observations; with fewer than 2 observations (in particular exactly 1) the
result is the library's NaN (`none`), not 0. -/
theorem volatility_cases (rs : List ℚ) :
    (2 ≤ rs.length →
      volatility rs = some (Real.sqrt ((sampleVar rs : ℚ) : ℝ) * Real.sqrt 252)) ∧
    (rs.length < 2 → volatility rs = none) := by
  constructor
  · intro h
    rw [volatility, std, if_pos h, Option.map_some']
  · intro h
    have hn : ¬ 2 ≤ rs.length := by omega
    rw [volatility, std, if_neg hn, Option.map_none']

/-- C6 (witness): the amended theorem applied to a 2-observation series and
to a 1-observation series. -/
theorem volatility_cases_witness :
    volatility [1/10, -1/10] =
      some (Real.sqrt ((sampleVar [1/10, -1/10] : ℚ) : ℝ) * Real.sqrt 252) ∧
    volatility [(5 : ℚ)] = none :=
  ⟨(volatility_cases [1/10, -1/10]).1 (by norm_num),
   (volatility_cases [(5 : ℚ)]).2 (by norm_num)⟩

/-- C7: the correlation matrix of the sector return table is symmetric; its
diagonal entries are exactly 1 whenever the column's observed variance is
non-zero; and any pair with fewer than 2 overlapping non-missing
observations yields NaN (`none`), never a silent 0. -/
theorem corr_matrix_props (cols : List (List (Option ℚ))) :
    (∀ i j, corr_matrix cols i j = corr_matrix cols j i) ∧
    (∀ i, css ((cols.getD i []).filterMap id) ≠ 0 → corr_matrix cols i i = some 1) ∧
    (∀ i j, (overlap (cols.getD i []) (cols.getD j [])).length < 2 →
      corr_matrix cols i j = none) := by
  refine ⟨fun i j => ?_, fun i h => ?_, fun i j h => ?_⟩
  · exact corr_comm _ _
  · exact corr_self _ h
  · exact corr_few_obs _ _ h

/-- C7 (witness): the correlation-matrix theorem applied to a concrete
two-column table: unit diagonal, symmetry of the (0,1) pair, and NaN for a
pair against the out-of-range (hence empty) column 5. -/
theorem corr_matrix_props_witness :
    corr_matrix [[some 1, some 2], [some 2, some 1]] 0 0 = some 1 ∧
    corr_matrix [[some 1, some 2], [some 2, some 1]] 0 1 =
      corr_matrix [[some 1, some 2], [some 2, some 1]] 1 0 ∧
    corr_matrix [[some 1, some 2], [some 2, some 1]] 0 5 = none := by
  refine ⟨(corr_matrix_props [[some 1, some 2], [some 2, some 1]]).2.1 0 ?_,
    (corr_matrix_props [[some 1, some 2], [some 2, some 1]]).1 0 1,
    (corr_matrix_props [[some 1, some 2], [some 2, some 1]]).2.2 0 5 ?_⟩
  · norm_num [List.filterMap_cons, css, mean]
  · simp [overlap]

/-- C8 (counterexample): on the spec's concrete scenario the annualized
volatility is `sqrt(0.02) * sqrt(252) = sqrt(5.04) = 2.24499...`, which
differs from the claimed 2.2454 by more than half a unit in the fourth
displayed decimal place (tolerance 1/20000), so the claimed value is wrong
in its last digit. -/
theorem kpi_scenario_counterexample :
    volatility [1/10, -1/10] = some (Real.sqrt ((1 : ℝ)/50) * Real.sqrt 252) ∧
    1/20000 < |Real.sqrt ((1 : ℝ)/50) * Real.sqrt 252 - 2.2454| := by
  refine ⟨volatility_scenario_value, ?_⟩
  obtain ⟨hl, hu⟩ := sqrt_bounds_5p04
  rw [abs_sub_comm, abs_of_pos (by linarith)]
  linarith

/-- C8 (amended): prices [100, 110, 99] give returns [0.10, -0.10], total
return -1.0%, and annualized volatility `stdev([0.10, -0.10]) * sqrt(252)`
≈ 2.2450 (to the four displayed decimal places), not 2.2454. -/
theorem kpi_scenario_amended :
    daily_returns [some 100, some 110, some 99] = [1/10, -1/10] ∧
    total_return [100, 110, 99] = FVal.num (-1) ∧
    volatility [1/10, -1/10] = some (Real.sqrt ((1 : ℝ)/50) * Real.sqrt 252) ∧
    |Real.sqrt ((1 : ℝ)/50) * Real.sqrt 252 - 2.245| ≤ 1/20000 := by
  refine ⟨?_, ?_, volatility_scenario_value, ?_⟩
  · norm_num [daily_returns, pct_change, pct_change_from, pct_change_step,
      List.filterMap_cons]
  · norm_num [total_return, fdiv, fsub, fmul]
  · obtain ⟨hl, hu⟩ := sqrt_bounds_5p04
    rw [abs_le]
    constructor <;> linarith

/-- C9: whenever the number of weight entries differs from the number of
instrument columns, multiplying the return table by the weights array fails
with pandas' coercion ValueError instead of computing any weighted sum. -/
theorem weights_mismatch_fails (n : ℕ) (cols : List (List ℚ)) (ws : List ℚ)
    (h : cols.length ≠ ws.length) :
    portfolio_returns_checked n cols ws =
      Except.error ("ValueError: unable to coerce the weights array to a Series, lengths differ") ∧
    ∀ rs, portfolio_returns_checked n cols ws ≠ Except.ok rs := by
  rw [portfolio_returns_checked, if_neg h]
  exact ⟨rfl, fun rs hc => Except.noConfusion hc⟩

/-- C9 (witness): the mismatch theorem applied to one column and two
weights. -/
theorem weights_mismatch_fails_witness :
    portfolio_returns_checked 2 [[(1 : ℚ), 2]] [1/2, 1/2] =
      Except.error ("ValueError: unable to coerce the weights array to a Series, lengths differ") :=
  (weights_mismatch_fails 2 [[(1 : ℚ), 2]] [1/2, 1/2] (by norm_num)).1

/-- C10: on the sector path, for every non-empty price table the zero-filled
return series has the same length as the table with value 0 at the first
date, the portfolio and cumulative return series also have the table's
length, and the first cumulative value is exactly 1 — in contrast to the
single-stock path, whose return series is one element shorter than its
price series. -/
theorem sector_path_first_row (n : ℕ) (cols : List (List (Option ℚ))) (ws : List ℚ)
    (hn : 0 < n) (hc : ∀ c ∈ cols, c.length = n) :
    (∀ c ∈ cols, (sector_returns c).length = n ∧ (sector_returns c).head? = some 0) ∧
    (portfolio_returns n (cols.map sector_returns) ws).length = n ∧
    (cumulative_returns (portfolio_returns n (cols.map sector_returns) ws)).length = n ∧
    (cumulative_returns (portfolio_returns n (cols.map sector_returns) ws)).getD 0 0 = 1 ∧
    (∀ ps : List ℚ, 2 ≤ ps.length → (daily_returns (ps.map some)).length = ps.length - 1) := by
  have hcols0 : ∀ c' ∈ cols.map sector_returns, c'.getD 0 0 = 0 := by
    intro c' hc'
    obtain ⟨c, hcmem, rfl⟩ := List.mem_map.mp hc'
    cases c with
    | nil =>
      have := hc [] hcmem
      simp at this
      omega
    | cons o t => exact sector_returns_getD_zero o t
  have hp0 : (portfolio_returns n (cols.map sector_returns) ws).getD 0 0 = 0 := by
    rw [portfolio_returns, row_sums_getD n 0 hn]
    exact sum_getD_zero_of_cols_zero 0 (cols.map sector_returns) ws hcols0
  refine ⟨?_, length_portfolio_returns n _ ws, ?_, ?_, ?_⟩
  · intro c hcm
    refine ⟨?_, ?_⟩
    · rw [length_sector_returns, hc c hcm]
    · cases c with
      | nil =>
        have := hc [] hcm
        simp at this
        omega
      | cons o t => exact sector_returns_head o t
  · rw [length_cumulative_returns, length_portfolio_returns]
  · rw [cumulative_returns_getD _ 0 (by rw [length_portfolio_returns]; omega)]
    rw [show (0 : ℕ) + 1 = 1 from rfl, Finset.prod_range_one, hp0]
    norm_num
  · intro ps h2
    cases ps with
    | nil => simp at h2
    | cons p l =>
      rw [length_daily_returns_map_some]
      simp

/-- C10 (witness): the sector-path theorem applied to a concrete one-column
table of two rows. -/
theorem sector_path_first_row_witness :
    (sector_returns [some 1, some 2]).head? = some 0 ∧
    (cumulative_returns (portfolio_returns 2 ([[some 1, some 2]].map sector_returns)
      [1/2])).getD 0 0 = 1 :=
  ⟨((sector_path_first_row 2 [[some 1, some 2]] [1/2] (by norm_num)
      (by intro c hc; simp at hc; rw [hc]; rfl)).1 [some 1, some 2] (by simp)).2,
   (sector_path_first_row 2 [[some 1, some 2]] [1/2] (by norm_num)
      (by intro c hc; simp at hc; rw [hc]; rfl)).2.2.2.1⟩

end DataForge
